import Mathlib

/-!
Verification of the investment-appraisal engine (`investment_model.py`,
`calculations.py`, `app.py`) against its natural-language specification.

Series of money amounts are modelled as `List ℚ` (exact rational arithmetic
standing in for Python floats).  A Python `nan` sentinel is modelled as
`Option.none`.  Year indexing follows the source: schedules produced by the
allowance engine are 1-based lists of rows, cash-flow series are 0-based.
-/

/-- One row of the capital-allowance schedule built by
`compute_capital_allowances_schedule` (columns `Year`, `TWDV_Start`,
`Allowance`, `TWDV_End`, `BalancingAdj`). -/
structure CARow where
  year : ℕ
  twdv_start : ℚ
  allowance : ℚ
  twdv_end : ℚ
  bal_adj : ℚ
deriving Repr, DecidableEq, Inhabited

/-- The loop body of `compute_capital_allowances_schedule`
(`investment_model.py`, lines 39–52): `y` is the current year, the second
argument counts the years still to emit (`years - y + 1`), the third is the
running written-down value `twdv`.  While more than one year remains the
ordinary writing-down allowance is taken; the single remaining year is the
final year, which books the balancing adjustment `twdv - disp` and closes
the pool (`TWDV_End = 0`). -/
def caGo (wda_rate disp : ℚ) : ℕ → ℕ → ℚ → List CARow
  | _, 0, _ => []
  | y, 1, twdv => [⟨y, twdv, 0, 0, twdv - disp⟩]
  | y, k + 2, twdv =>
    let allowance := wda_rate * twdv
    let twdv2 := twdv - allowance
    ⟨y, twdv, allowance, twdv2, 0⟩ :: caGo wda_rate disp (y + 1) (k + 1) twdv2

/-- `compute_capital_allowances_schedule` (`investment_model.py`, lines
24–61): reducing-balance WDA pool starting at `capex`, ordinary allowance
`wda_rate * twdv` in years `1..years-1`, balancing adjustment against the
(optionally cost-capped) disposal value in year `years`.  The source
performs no input validation; the returned schedule simply has `years`
rows. -/
def compute_capital_allowances_schedule (capex : ℚ) (years : ℕ)
    (wda_rate disposal_value : ℚ) (cap_to_cost : Bool) : List CARow :=
  let disp := if cap_to_cost then min disposal_value capex else disposal_value
  caGo wda_rate disp 1 years capex

/-! ### Generic list lemmas used throughout -/

lemma getD_cons_succ {α : Type} (a : α) (l : List α) (i : ℕ) (d : α) :
    (a :: l).getD (i + 1) d = l.getD i d := rfl

lemma getLastD_eq_getD {α : Type} :
    ∀ (l : List α) (d d' : α), l ≠ [] → l.getLastD d = l.getD (l.length - 1) d'
  | [], _, _, h => absurd rfl h
  | [a], _, _, _ => rfl
  | a :: b :: t, d, d', _ => by
    rw [List.getLastD_cons, getLastD_eq_getD (b :: t) a d' (by simp)]
    simp [List.length_cons]

lemma getD_map_lt {α β : Type} (f : α → β) :
    ∀ (l : List α) (i : ℕ), i < l.length → ∀ (da : α) (db : β),
      (l.map f).getD i db = f (l.getD i da)
  | [], i, h, _, _ => absurd h (by simp)
  | a :: t, 0, _, _, _ => rfl
  | a :: t, i + 1, h, da, db => by
    simp only [List.map_cons, getD_cons_succ]
    exact getD_map_lt f t i (by simpa using h) da db

lemma getD_append_lt {α : Type} :
    ∀ (l₁ l₂ : List α) (i : ℕ), i < l₁.length → ∀ (d : α),
      (l₁ ++ l₂).getD i d = l₁.getD i d
  | [], _, i, h, _ => absurd h (by simp)
  | a :: t, l₂, 0, _, _ => rfl
  | a :: t, l₂, i + 1, h, d => by
    simp only [List.cons_append, getD_cons_succ]
    exact getD_append_lt t l₂ i (by simpa using h) d

lemma getD_append_len {α : Type} :
    ∀ (l₁ l₂ : List α) (d : α), (l₁ ++ l₂).getD l₁.length d = l₂.getD 0 d
  | [], _, _ => rfl
  | a :: t, l₂, d => by
    simp only [List.cons_append, List.length_cons, getD_cons_succ]
    exact getD_append_len t l₂ d

lemma getD_dropLast {α : Type} :
    ∀ (l : List α) (i : ℕ), i + 1 < l.length → ∀ (d : α),
      l.dropLast.getD i d = l.getD i d
  | [], i, h, _ => absurd h (by simp)
  | [a], i, h, _ => by simp at h
  | a :: b :: t, 0, _, _ => rfl
  | a :: b :: t, i + 1, h, d => by
    rw [show (a :: b :: t).dropLast = a :: (b :: t).dropLast from rfl]
    simp only [getD_cons_succ]
    exact getD_dropLast (b :: t) i (by simpa using h) d

lemma getD_set_self (l : List ℚ) :
    ∀ (i : ℕ), i < l.length → ∀ (x : ℚ), (l.set i x).getD i 0 = x := by
  induction l with
  | nil => intro i h; simp at h
  | cons a t ih =>
    intro i h x
    cases i with
    | zero => rfl
    | succ j =>
      simp only [List.set_cons_succ, getD_cons_succ]
      exact ih j (by simpa using h) x

lemma getD_set_ne (l : List ℚ) :
    ∀ (i j : ℕ), i ≠ j → ∀ (x : ℚ), (l.set i x).getD j 0 = l.getD j 0 := by
  induction l with
  | nil => intro i j _ x; simp [List.set]
  | cons a t ih =>
    intro i j hne x
    cases i with
    | zero =>
      cases j with
      | zero => exact absurd rfl hne
      | succ k => rfl
    | succ m =>
      cases j with
      | zero => rfl
      | succ k =>
        simp only [List.set_cons_succ, getD_cons_succ]
        exact ih m k (by omega) x

lemma getD_range_map (f : ℕ → ℚ) :
    ∀ (n y : ℕ), y < n → ((List.range n).map f).getD y 0 = f y := by
  intro n y h
  rw [List.getD_eq_getElem?_getD, List.getElem?_map, List.getElem?_range h]
  rfl

lemma getD_replicate (n y : ℕ) : (List.replicate n (0 : ℚ)).getD y 0 = 0 := by
  rw [List.getD_eq_getElem?_getD]
  rcases lt_or_le y n with h | h
  · rw [List.getElem?_replicate, if_pos h]; rfl
  · rw [List.getElem?_eq_none (by simpa using h)]; rfl

lemma getD_zipWith_sub :
    ∀ (l₁ l₂ : List ℚ) (i : ℕ), i < l₁.length → i < l₂.length →
      (List.zipWith (· - ·) l₁ l₂).getD i 0 = l₁.getD i 0 - l₂.getD i 0
  | [], _, i, h, _ => absurd h (by simp)
  | a :: t, [], i, _, h => absurd h (by simp)
  | a :: t, b :: u, 0, _, _ => rfl
  | a :: t, b :: u, i + 1, h₁, h₂ => by
    simp only [List.zipWith_cons_cons, getD_cons_succ]
    exact getD_zipWith_sub t u i (by simpa using h₁) (by simpa using h₂)

/-! ### Allowance-engine structure lemmas -/

lemma caGo_length (wda_rate disp : ℚ) :
    ∀ (k y : ℕ) (twdv : ℚ), (caGo wda_rate disp y k twdv).length = k
  | 0, _, _ => rfl
  | 1, _, _ => rfl
  | k + 2, y, twdv => by
    simp only [caGo, List.length_cons]
    rw [caGo_length wda_rate disp (k + 1) (y + 1)]

lemma caGo_ne_nil (wda_rate disp : ℚ) (k y : ℕ) (twdv : ℚ) :
    caGo wda_rate disp y (k + 1) twdv ≠ [] := by
  intro h
  have := caGo_length wda_rate disp (k + 1) y twdv
  rw [h] at this
  simp at this

lemma caGo_getLastD (wda_rate disp : ℚ) :
    ∀ (k y : ℕ) (twdv : ℚ),
      (caGo wda_rate disp y (k + 1) twdv).getLastD default =
        ⟨y + k, twdv * (1 - wda_rate) ^ k, 0, 0, twdv * (1 - wda_rate) ^ k - disp⟩
  | 0, y, twdv => by simp [caGo]
  | k + 1, y, twdv => by
    show (caGo wda_rate disp y (k + 2) twdv).getLastD default = _
    rw [show caGo wda_rate disp y (k + 2) twdv =
      ⟨y, twdv, wda_rate * twdv, twdv - wda_rate * twdv, 0⟩ ::
        caGo wda_rate disp (y + 1) (k + 1) (twdv - wda_rate * twdv) from rfl]
    rw [List.getLastD_cons]
    rcases List.exists_cons_of_ne_nil
      (caGo_ne_nil wda_rate disp k (y + 1) (twdv - wda_rate * twdv)) with ⟨hd, tl, hc⟩
    have h1 := caGo_getLastD wda_rate disp k (y + 1) (twdv - wda_rate * twdv)
    rw [hc] at h1 ⊢
    rw [List.getLastD_cons] at h1 ⊢
    rw [h1]
    have harith : (twdv - wda_rate * twdv) * (1 - wda_rate) ^ k =
        twdv * (1 - wda_rate) ^ (k + 1) := by ring
    have hy : y + 1 + k = y + (k + 1) := by omega
    simp [harith, hy]

/-- `C2`: For every capex ≥ 0, WDA rate in [0,1], project life N ≥ 1 and
disposal value, with the cap-to-cost flag enabled, the schedule's written-down
value after the N−1 ordinary-allowance years (the final row's `TWDV_Start`)
equals `capex * (1 - rate) ^ (N - 1)`, the year-N balancing adjustment equals
`capex * (1 - rate) ^ (N - 1) - min disposal capex`, and for N = 1 the
schedule collapses to a single row whose balancing adjustment is
`capex - min disposal capex`. -/
theorem allowance_schedule_closed_form (capex wda_rate disposal : ℚ) (years : ℕ)
    (hc : 0 ≤ capex) (hr0 : 0 ≤ wda_rate) (hr1 : wda_rate ≤ 1) (hy : 1 ≤ years) :
    ((compute_capital_allowances_schedule capex years wda_rate disposal true).getLastD
        default).twdv_start = capex * (1 - wda_rate) ^ (years - 1) ∧
    ((compute_capital_allowances_schedule capex years wda_rate disposal true).getLastD
        default).bal_adj = capex * (1 - wda_rate) ^ (years - 1) - min disposal capex ∧
    (years = 1 → compute_capital_allowances_schedule capex years wda_rate disposal true =
      [⟨1, capex, 0, 0, capex - min disposal capex⟩]) := by
  obtain ⟨k, rfl⟩ : ∃ k, years = k + 1 := ⟨years - 1, by omega⟩
  unfold compute_capital_allowances_schedule
  simp only [if_pos rfl]
  rw [caGo_getLastD]
  refine ⟨rfl, by simp, ?_⟩
  intro h1
  have hk : k = 0 := by omega
  subst hk
  simp [caGo]

/-- Witness for `allowance_schedule_closed_form` at capex = 100, rate = 1/2,
years = 3, disposal = 10. -/
theorem allowance_schedule_closed_form_witness :
    ((compute_capital_allowances_schedule 100 3 (1/2) 10 true).getLastD
        default).bal_adj = 100 * (1 - 1/2) ^ (3 - 1) - min 10 100 :=
  (allowance_schedule_closed_form 100 (1/2) 10 3 (by norm_num) (by norm_num)
    (by norm_num) (by norm_num)).2.1

/-- `C10`: For every capex, WDA rate, years N ≥ 1, disposal value and cap
flag, the final year's closing written-down value (`TWDV_End` of the last
row) equals exactly zero: the tax pool is always fully closed at disposal. -/
theorem allowance_schedule_pool_closed (capex wda_rate disposal : ℚ) (years : ℕ)
    (cap : Bool) (hy : 1 ≤ years) :
    ((compute_capital_allowances_schedule capex years wda_rate disposal cap).getLastD
        default).twdv_end = 0 := by
  obtain ⟨k, rfl⟩ : ∃ k, years = k + 1 := ⟨years - 1, by omega⟩
  unfold compute_capital_allowances_schedule
  rw [caGo_getLastD]

/-- Witness for `allowance_schedule_pool_closed` at a concrete input with a
balancing charge (disposal above the remaining pool). -/
theorem allowance_schedule_pool_closed_witness :
    ((compute_capital_allowances_schedule 100 2 (1/4) 90 false).getLastD
        default).twdv_end = 0 :=
  allowance_schedule_pool_closed 100 (1/4) 90 2 false (by norm_num)

/-- `C6` (counterexample): the claim says negative capex (or rate outside
[0,1], or years < 1) makes the allowance engine fail with a ValidationError
before any schedule rows are built.  The source contains no validation at
all: with capex = −1 it happily builds a full two-row schedule, and with
years = 0 it returns an empty schedule instead of failing. -/
theorem allowance_schedule_no_validation_counterexample :
    compute_capital_allowances_schedule (-1) 2 (1/2) 0 true =
      [⟨1, -1, -(1/2), -(1/2), 0⟩, ⟨2, -(1/2), 0, 0, 1/2⟩] ∧
    compute_capital_allowances_schedule 5 0 (1/4) 1 true = [] := by
  constructor
  · show caGo (1/2) (min 0 (-1)) 1 2 (-1) = _
    norm_num [caGo, min_eq_right (show (-1:ℚ) ≤ 0 by norm_num)]
  · rfl

/-- `C6` (amended): the allowance engine performs no input validation —
negative capex, WDA rates outside [0,1] and years < 1 are all accepted
without error; for every input the recurrence terminates in exactly `years`
steps, producing a schedule with one row per year (empty for years = 0). -/
theorem allowance_schedule_total (capex wda_rate disposal : ℚ) (years : ℕ)
    (cap : Bool) :
    (compute_capital_allowances_schedule capex years wda_rate disposal cap).length =
      years := by
  unfold compute_capital_allowances_schedule
  exact caGo_length _ _ years 1 capex

/-! ### Working-capital engine -/

/-- Consecutive differences of a list (the `wc_required[t] - wc_required[t-1]`
loop of `compute_working_capital_movements`, `investment_model.py` lines
108–109). -/
def deltas : List ℚ → List ℚ
  | a :: b :: rest => (b - a) :: deltas (b :: rest)
  | _ => []

/-- `compute_working_capital_movements` (`investment_model.py`, lines
97–112): required balance = `wc_pct * sales` per year, with the year-1
requirement prepended as the year-0 balance; movements are the first
requirement followed by consecutive deltas; the last movement is then
overwritten with the negated second-to-last required balance
(`wc_mov[-1] = -wc_required[-2]`).  The source indexes the result 0..N. -/
def compute_working_capital_movements (sales : List ℚ) (wc_pct : ℚ) : List ℚ :=
  let wc_req0 := sales.map (fun s => wc_pct * s)
  let wc_required := wc_req0.headD 0 :: wc_req0
  let wc_mov := wc_required.headD 0 :: deltas wc_required
  wc_mov.dropLast ++ [-(wc_required.getD (wc_required.length - 2) 0)]

lemma deltas_length : ∀ (l : List ℚ), (deltas l).length = l.length - 1
  | [] => rfl
  | [_] => rfl
  | a :: b :: rest => by
    show (deltas (b :: rest)).length + 1 = _
    rw [deltas_length (b :: rest)]
    simp

lemma deltas_sum : ∀ (l : List ℚ) (a : ℚ), (deltas (a :: l)).sum = l.getLastD a - a
  | [], a => by simp [deltas]
  | b :: rest, a => by
    show (b - a) + (deltas (b :: rest)).sum = _
    rw [deltas_sum rest b, List.getLastD_cons]
    ring

lemma deltas_getD : ∀ (l : List ℚ) (i : ℕ), i + 1 < l.length →
    (deltas l).getD i 0 = l.getD (i + 1) 0 - l.getD i 0
  | [], i, h => by simp at h
  | [a], i, h => by simp at h
  | a :: b :: rest, 0, _ => rfl
  | a :: b :: rest, i + 1, h => by
    show (deltas (b :: rest)).getD i 0 = _
    rw [deltas_getD (b :: rest) i (by simpa using h)]
    rfl

lemma dropLast_sum : ∀ (l : List ℚ), l ≠ [] → l.dropLast.sum = l.sum - l.getLastD 0
  | [], h => absurd rfl h
  | [a], _ => by simp
  | a :: b :: rest, _ => by
    rw [show (a :: b :: rest).dropLast = a :: (b :: rest).dropLast from rfl]
    simp only [List.sum_cons]
    rw [dropLast_sum (b :: rest) (by simp)]
    simp only [List.getLastD_cons, List.sum_cons]
    ring

/-- `C7`: For every sales series of length N ≥ 1 and every pct in [0,1], the
N+1 working-capital movements over years 0..N sum to exactly zero: the
working-capital balance is fully unwound by the end of the project. -/
theorem working_capital_movements_sum_zero (sales : List ℚ) (wc_pct : ℚ)
    (hne : sales ≠ []) (h0 : 0 ≤ wc_pct) (h1 : wc_pct ≤ 1) :
    (compute_working_capital_movements sales wc_pct).sum = 0 := by
  obtain ⟨s₁, rest, rfl⟩ := List.exists_cons_of_ne_nil hne
  unfold compute_working_capital_movements
  simp only [List.map_cons, List.headD_cons]
  set r := wc_pct * s₁ with hr
  set m := rest.map (fun s => wc_pct * s) with hm
  have hlen : (r :: r :: m).length - 2 = m.length := by simp
  have hidx : (r :: r :: m).getD (m.length + 1) 0 = (r :: m).getD m.length 0 := rfl
  have hQ : (r :: m).getLastD r = (r :: m).getD m.length 0 := by
    rw [getLastD_eq_getD (r :: m) r 0 (by simp)]
    simp
  have hdne : deltas (r :: r :: m) ≠ [] := by
    intro hcon
    have := deltas_length (r :: r :: m)
    rw [hcon] at this
    simp at this
  have hdlen : (deltas (r :: r :: m)).length - 1 = m.length := by
    rw [deltas_length]
    simp
  have hlast : (r :: deltas (r :: r :: m)).getLastD 0 =
      (r :: m).getLastD r - (r :: r :: m).getD m.length 0 := by
    rw [List.getLastD_cons, getLastD_eq_getD _ r 0 hdne, hdlen,
      deltas_getD (r :: r :: m) m.length (by simp), hidx, ← hQ]
  have hsum : (r :: deltas (r :: r :: m)).sum = (r :: m).getLastD r := by
    rw [List.sum_cons, deltas_sum (r :: m) r]
    ring
  rw [List.sum_append, dropLast_sum _ (by simp), hsum, hlast, hlen]
  simp only [List.sum_cons, List.sum_nil]
  ring

/-- Witness for `working_capital_movements_sum_zero` on a concrete two-year
sales series. -/
theorem working_capital_movements_sum_zero_witness :
    (compute_working_capital_movements [400, 500] (1/10)).sum = 0 :=
  working_capital_movements_sum_zero [400, 500] (1/10) (by simp) (by norm_num)
    (by norm_num)

/-- `C1` (counterexample): the claim says the final movement equals
`-pct * sales N` (1-based).  On sales = [1, 2] with pct = 1 the source
produces movements [1, 0, −1]: the final entry is `-pct * sales (N-1) = -1`,
not `-pct * sales N = -2`. -/
theorem working_capital_final_movement_counterexample :
    (compute_working_capital_movements [1, 2] 1).getD 2 0 = -1 ∧
    ((-1 : ℚ) ≠ -(1 * ([(1 : ℚ), 2].getD 1 0))) := by
  constructor
  · norm_num [compute_working_capital_movements, deltas]
  · norm_num

/-- `C1` (amended): For every sales series of length N ≥ 1 and pct, the
movement series indexed 0..N satisfies movement 0 = pct * sales 1 (1-based),
movement t = pct * sales t − pct * sales (t−1) for t = 1..N−1 (with the
year-0 balance standing in for sales 0, so movement 1 = 0), and the final
entry movement N equals `-pct * sales (N-1)` — the negative of the
year-(N−1) required balance, the balance actually held entering year N
(for N = 1 this is `-pct * sales 1`).  In the 0-based `getD` form below,
`sales.getD (t-2) 0` denotes the 1-based entry sales (t−1) with ℕ-truncated
subtraction, so the t = 1 and N = 1 cases degenerate to sales 1. -/
theorem working_capital_movements_spec (sales : List ℚ) (wc_pct : ℚ)
    (hne : sales ≠ []) :
    (compute_working_capital_movements sales wc_pct).length = sales.length + 1 ∧
    (compute_working_capital_movements sales wc_pct).getD 0 0 =
      wc_pct * sales.getD 0 0 ∧
    (∀ t, 1 ≤ t → t ≤ sales.length - 1 →
      (compute_working_capital_movements sales wc_pct).getD t 0 =
        wc_pct * sales.getD (t - 1) 0 - wc_pct * sales.getD (t - 2) 0) ∧
    (compute_working_capital_movements sales wc_pct).getD sales.length 0 =
      -(wc_pct * sales.getD (sales.length - 2) 0) := by
  obtain ⟨s₁, rest, rfl⟩ := List.exists_cons_of_ne_nil hne
  unfold compute_working_capital_movements
  simp only [List.map_cons, List.headD_cons]
  set r := wc_pct * s₁ with hr
  set m := rest.map (fun s => wc_pct * s) with hm
  have hmlen : m.length = rest.length := by rw [hm]; simp
  have hreq : ∀ i, i ≤ rest.length →
      (r :: r :: m).getD i 0 = wc_pct * (s₁ :: rest).getD (i - 1) 0 := by
    intro i hi
    match i with
    | 0 => simp [hr]
    | 1 => simp [hr]
    | (j + 2) =>
      show m.getD j 0 = wc_pct * rest.getD j 0
      have hj : j < rest.length := by omega
      rw [hm]
      exact getD_map_lt (fun s => wc_pct * s) rest j hj 0 0
  have hmovlen : (r :: deltas (r :: r :: m)).length = rest.length + 2 := by
    simp [deltas_length, hmlen]
  have hdroplen : ((r :: deltas (r :: r :: m)).dropLast).length = rest.length + 1 := by
    rw [List.length_dropLast, hmovlen]
    omega
  refine ⟨?_, ?_, ?_, ?_⟩
  · rw [List.length_append, hdroplen]
    simp
  · rw [getD_append_lt _ _ 0 (by omega) 0,
      getD_dropLast _ 0 (by rw [hmovlen]; omega) 0]
    simp [hr]
  · intro t ht1 ht2
    simp only [List.length_cons, Nat.add_sub_cancel] at ht2
    rw [getD_append_lt _ _ t (by omega) 0,
      getD_dropLast _ t (by rw [hmovlen]; omega) 0]
    obtain ⟨j, rfl⟩ : ∃ j, t = j + 1 := ⟨t - 1, by omega⟩
    rw [getD_cons_succ, deltas_getD (r :: r :: m) j (by simp; omega)]
    rw [hreq (j + 1) (by omega), hreq j (by omega)]
    simp
  · have hR : (s₁ :: rest).length - 2 = rest.length - 1 := by simp
    have hL : (s₁ :: rest).length = (r :: deltas (r :: r :: m)).dropLast.length := by
      rw [hdroplen]
      simp
    rw [hR, hL, getD_append_len]
    show -((r :: r :: m).getD ((r :: r :: m).length - 2) 0) = _
    have hp2 : (r :: r :: m).length - 2 = m.length := by simp
    rw [hp2, hreq m.length (by omega), hmlen]

/-- Witness for `working_capital_movements_spec` on sales = [1, 2], pct = 1:
the final movement is `-(1 * 1)`. -/
theorem working_capital_movements_spec_witness :
    (compute_working_capital_movements [1, 2] 1).getD 2 0 =
      -(1 * ([(1 : ℚ), 2].getD 0 0)) :=
  (working_capital_movements_spec [1, 2] 1 (by simp)).2.2.2

/-! ### Tax engine -/

/-- `cash_tax[pay_year] += tax_payable[t]` for one position: bump the entry
at index `i` by `x` (`investment_model.py`, line 80). -/
def addAt (l : List ℚ) (i : ℕ) (x : ℚ) : List ℚ := l.set i (l.getD i 0 + x)

/-- The payment-posting loop of `compute_tax_schedule`
(`investment_model.py`, lines 76–80): for `t = 0 .. T-1` (0-based liability
years) post `tax_payable[t]` to `pay_year = t + 1 + lag`, skipping payments
falling beyond `years`.  The first argument of the recursion counts how many
loop iterations remain to be performed (iterations `0..T-1` run in order). -/
def cashTaxLoop (liab : List ℚ) (lag years : ℕ) : ℕ → List ℚ → List ℚ
  | 0, acc => acc
  | t + 1, acc =>
    let acc2 := cashTaxLoop liab lag years t acc
    let pay := t + 1 + lag
    if pay ≤ years then addAt acc2 pay (liab.getD t 0) else acc2

/-- The `ca_vec` of `compute_tax_schedule` (`investment_model.py`, line 71):
ordinary allowances for all but the last scheduled year, then the final
year's balancing adjustment. -/
def ca_vec (ca_df : List CARow) : List ℚ :=
  (ca_df.map (·.allowance)).dropLast ++ [(ca_df.map (·.bal_adj)).getLastD 0]

/-- `compute_tax_schedule` (`investment_model.py`, lines 63–95): taxable
profit = operating profit − (allowance, or balancing adjustment in the final
year); cash tax = `max(taxable, 0) * tax_rate` posted with a payment lag,
payments falling beyond the horizon dropped.  Returns the `TaxableProfit`
series (index 0 ↔ year 1) and the year-0..N `TaxPayable` series. -/
def compute_tax_schedule (op : List ℚ) (ca_df : List CARow) (tax_rate : ℚ)
    (lag : ℕ) : List ℚ × List ℚ :=
  let years := op.length
  let taxable := List.zipWith (· - ·) op (ca_vec ca_df)
  let tax_payable := taxable.map (fun x => max x 0 * tax_rate)
  let cash_tax := cashTaxLoop tax_payable lag years years
    (List.replicate (years + lag + 1) 0)
  let tax_paid := (List.range (years + 1)).map (fun y => cash_tax.getD y 0)
  (taxable, tax_paid)

lemma length_addAt (l : List ℚ) (i : ℕ) (x : ℚ) :
    (addAt l i x).length = l.length := by
  unfold addAt
  exact List.length_set l i _

lemma cashTaxLoop_length (liab : List ℚ) (lag years : ℕ) :
    ∀ (T : ℕ) (acc : List ℚ), (cashTaxLoop liab lag years T acc).length = acc.length
  | 0, acc => rfl
  | T + 1, acc => by
    show (if T + 1 + lag ≤ years then _ else _ : List ℚ).length = _
    split
    · rw [length_addAt, cashTaxLoop_length liab lag years T acc]
    · rw [cashTaxLoop_length liab lag years T acc]

lemma cashTaxLoop_getD (liab : List ℚ) (lag years : ℕ) :
    ∀ (T : ℕ) (acc : List ℚ), years < acc.length → ∀ (y : ℕ), y ≤ years →
      (cashTaxLoop liab lag years T acc).getD y 0 =
        acc.getD y 0 +
          (if 1 + lag ≤ y ∧ y ≤ T + lag then liab.getD (y - 1 - lag) 0 else 0)
  | 0, acc, hacc, y, hy => by
    rw [if_neg (by omega)]
    show acc.getD y 0 = acc.getD y 0 + 0
    ring
  | T + 1, acc, hacc, y, hy => by
    have ih := cashTaxLoop_getD liab lag years T acc hacc y hy
    have hlen2 : (cashTaxLoop liab lag years T acc).length = acc.length :=
      cashTaxLoop_length liab lag years T acc
    show (if T + 1 + lag ≤ years then _ else _ : List ℚ).getD y 0 = _
    split
    · rename_i hpay
      by_cases hyp : y = T + 1 + lag
      · subst hyp
        unfold addAt
        rw [getD_set_self _ _ (by omega) _, ih]
        rw [if_neg (by omega), if_pos (by omega)]
        have : T + 1 + lag - 1 - lag = T := by omega
        rw [this]
        ring
      · unfold addAt
        rw [getD_set_ne _ _ _ (by omega) _, ih]
        by_cases hc : 1 + lag ≤ y ∧ y ≤ T + lag
        · rw [if_pos hc, if_pos (by omega)]
        · rw [if_neg hc, if_neg (by omega)]
    · rename_i hpay
      rw [ih]
      by_cases hc : 1 + lag ≤ y ∧ y ≤ T + lag
      · rw [if_pos hc, if_pos (by omega)]
      · rw [if_neg hc, if_neg (by omega)]

lemma ca_vec_length (ca_df : List CARow) (hne : ca_df ≠ []) :
    (ca_vec ca_df).length = ca_df.length := by
  unfold ca_vec
  rw [List.length_append, List.length_dropLast, List.length_map]
  have : 1 ≤ ca_df.length := List.length_pos.mpr hne
  simp
  omega

lemma ca_vec_getD_lt (ca_df : List CARow) (i : ℕ) (hi : i + 1 < ca_df.length) :
    (ca_vec ca_df).getD i 0 = (ca_df.getD i default).allowance := by
  unfold ca_vec
  rw [getD_append_lt _ _ i (by rw [List.length_dropLast, List.length_map]; omega) 0,
    getD_dropLast _ i (by rw [List.length_map]; omega) 0,
    getD_map_lt _ ca_df i (by omega) default 0]

lemma ca_vec_getD_last (ca_df : List CARow) (hne : ca_df ≠ []) :
    (ca_vec ca_df).getD (ca_df.length - 1) 0 = (ca_df.getLastD default).bal_adj := by
  unfold ca_vec
  have hlen : ((ca_df.map (·.allowance)).dropLast).length = ca_df.length - 1 := by
    rw [List.length_dropLast, List.length_map]
  rw [show ca_df.length - 1 = ((ca_df.map (·.allowance)).dropLast).length from hlen.symm,
    getD_append_len]
  show (ca_df.map (·.bal_adj)).getLastD 0 = _
  have hmne : ca_df.map (·.bal_adj) ≠ [] := by
    intro hcon
    exact hne (List.map_eq_nil.mp hcon)
  rw [getLastD_eq_getD _ 0 0 hmne, List.length_map,
    getD_map_lt _ ca_df (ca_df.length - 1)
      (by have := List.length_pos.mpr hne; omega) default 0,
    getLastD_eq_getD ca_df default default hne]

/-- `C3`: For every operating-profit series of length N ≥ 1, every allowance
schedule with one row per year, every tax rate and every lag ≥ 0, the tax
engine produces taxable t = operating profit t − (allowance for t < N,
balancing adjustment for t = N) (series 0-indexed from year 1); the payment
series covers exactly years 0..N; and for every year y ≤ N the cash payment
at y is `max(taxable (y − lag), 0) * tax_rate` when `lag + 1 ≤ y` and 0
otherwise — so every liability whose payment year exceeds N is absent from
the output (the horizon is not extended). -/
theorem tax_schedule_spec (op : List ℚ) (ca_df : List CARow) (tax_rate : ℚ)
    (lag : ℕ) (hlen : ca_df.length = op.length) (hN : 1 ≤ op.length) :
    (∀ t, 1 ≤ t → t ≤ op.length →
      (compute_tax_schedule op ca_df tax_rate lag).1.getD (t - 1) 0 =
        op.getD (t - 1) 0 -
          (if t < op.length then (ca_df.getD (t - 1) default).allowance
           else (ca_df.getLastD default).bal_adj)) ∧
    (compute_tax_schedule op ca_df tax_rate lag).2.length = op.length + 1 ∧
    (∀ y, y ≤ op.length →
      (compute_tax_schedule op ca_df tax_rate lag).2.getD y 0 =
        if 1 + lag ≤ y then
          max ((compute_tax_schedule op ca_df tax_rate lag).1.getD (y - 1 - lag) 0) 0
            * tax_rate
        else 0) := by
  have hdne : ca_df ≠ [] := by
    intro hcon
    rw [hcon] at hlen
    simp at hlen
    omega
  have hcav : (ca_vec ca_df).length = op.length := by
    rw [ca_vec_length ca_df hdne, hlen]
  have htaxable : ∀ i, i < op.length →
      (compute_tax_schedule op ca_df tax_rate lag).1.getD i 0 =
        op.getD i 0 - (ca_vec ca_df).getD i 0 := by
    intro i hi
    exact getD_zipWith_sub op (ca_vec ca_df) i hi (by omega)
  refine ⟨?_, ?_, ?_⟩
  · intro t ht1 ht2
    rw [htaxable (t - 1) (by omega)]
    by_cases hlt : t < op.length
    · rw [if_pos hlt, ca_vec_getD_lt ca_df (t - 1) (by omega)]
    · have hteq : t = op.length := by omega
      rw [if_neg hlt, show t - 1 = ca_df.length - 1 by omega,
        ca_vec_getD_last ca_df hdne]
  · show ((List.range (op.length + 1)).map _).length = op.length + 1
    rw [List.length_map, List.length_range]
  · intro y hy
    show ((List.range (op.length + 1)).map _).getD y 0 = _
    rw [getD_range_map _ (op.length + 1) y (by omega)]
    rw [cashTaxLoop_getD _ lag op.length op.length _
      (by rw [List.length_replicate]; omega) y hy]
    rw [getD_replicate]
    by_cases hc : 1 + lag ≤ y
    · rw [if_pos ⟨hc, by omega⟩, if_pos hc]
      have hylt : y - 1 - lag <
          (List.zipWith (· - ·) op (ca_vec ca_df)).length := by
        rw [List.length_zipWith, hcav]
        omega
      rw [getD_map_lt _ _ (y - 1 - lag) hylt 0 0]
      have hfst : (compute_tax_schedule op ca_df tax_rate lag).1 =
          List.zipWith (· - ·) op (ca_vec ca_df) := rfl
      rw [hfst]
      ring
    · rw [if_neg (by omega), if_neg hc]
      ring

/-- Witness for `tax_schedule_spec`: a two-year project where the year-2
liability's payment year 3 exceeds the horizon and is dropped, while the
year-1 liability is paid in year 2. -/
theorem tax_schedule_spec_witness :
    (compute_tax_schedule [10, 20]
        (compute_capital_allowances_schedule 8 2 (1/2) 0 true) (1/4) 1).2.getD 2 0 =
      if 1 + 1 ≤ 2 then
        max ((compute_tax_schedule [10, 20]
            (compute_capital_allowances_schedule 8 2 (1/2) 0 true) (1/4) 1).1.getD
          (2 - 1 - 1) 0) 0 * (1/4)
      else 0 :=
  (tax_schedule_spec [10, 20] (compute_capital_allowances_schedule 8 2 (1/2) 0 true)
    (1/4) 1
    (by rw [show ([(10 : ℚ), 20]).length = 2 from rfl]
        unfold compute_capital_allowances_schedule
        exact caGo_length _ _ 2 1 8)
    (by norm_num)).2.2 2 (by norm_num)

/-! ### IRR -/

/-- `np.sum(cashflows / denom)` of the Newton fallback in `irr`
(`investment_model.py`, line 132): NPV of the series at rate `r`, the first
argument of the recursion being the current 0-based index. -/
def npvAux (r : ℚ) : ℕ → List ℚ → ℚ
  | _, [] => 0
  | i, c :: rest => c / (1 + r) ^ i + npvAux r (i + 1) rest

/-- `np.sum(-idx * cashflows / ((1 + r) ** (idx + 1)))` (`investment_model.py`,
line 133): derivative of NPV with respect to `r`. -/
def dnpvAux (r : ℚ) : ℕ → List ℚ → ℚ
  | _, [] => 0
  | i, c :: rest => -(i : ℚ) * c / (1 + r) ^ (i + 1) + dnpvAux r (i + 1) rest

/-- The Newton iteration of `irr` (`investment_model.py`, lines 128–141).
The first argument is the remaining iteration budget (100 at the top call);
the Boolean records whether the `|r_new - r| < 1e-8` convergence break was
hit.  When the derivative is numerically zero, or when the budget runs out,
the loop ends without that break and the current estimate is returned — the
source's final `return r` returns it unconditionally. -/
def newtonLoop (cf : List ℚ) : ℕ → ℚ → ℚ × Bool
  | 0, r => (r, false)
  | n + 1, r =>
    let d_npv := dnpvAux r 0 cf
    if |d_npv| < 1 / 10 ^ 12 then (r, false)
    else
      let r_new := r - npvAux r 0 cf / d_npv
      if |r_new - r| < 1 / 10 ^ 8 then (r_new, true)
      else newtonLoop cf n r_new

/-- The sign-change guard of `irr` (`investment_model.py`, line 122):
`np.any(cashflows > 0) and np.any(cashflows < 0)`. -/
def signChange (cf : List ℚ) : Bool :=
  cf.any (fun x => decide (0 < x)) && cf.any (fun x => decide (x < 0))

/-- `irr` (`investment_model.py`, lines 120–141): `nan` (modelled as `none`)
when the series never changes sign; otherwise the Newton solver's final
estimate.  (`np.irr` was removed from numpy in 1.20, so the `try` branch
always raises and the except-branch Newton fallback is what runs; the
fallback's result is returned unconditionally.)  Guess fixed at the default
0.1 as in every call site. -/
def irr (cf : List ℚ) : Option ℚ :=
  if signChange cf then some (newtonLoop cf 100 (1 / 10)).1 else none

/-- `C4`: For every cash-flow series with all entries non-negative, and for
every series with all entries non-positive (no sign change), `irr` returns
the undefined sentinel rather than any numeric rate. -/
theorem irr_no_sign_change_none (cf : List ℚ) :
    ((∀ x ∈ cf, 0 ≤ x) → irr cf = none) ∧ ((∀ x ∈ cf, x ≤ 0) → irr cf = none) := by
  constructor
  · intro h
    unfold irr
    rw [if_neg]
    intro hsc
    unfold signChange at hsc
    rw [Bool.and_eq_true] at hsc
    obtain ⟨-, hneg⟩ := hsc
    rw [List.any_eq_true] at hneg
    obtain ⟨x, hx, hxlt⟩ := hneg
    rw [decide_eq_true_eq] at hxlt
    have := h x hx
    linarith
  · intro h
    unfold irr
    rw [if_neg]
    intro hsc
    unfold signChange at hsc
    rw [Bool.and_eq_true] at hsc
    obtain ⟨hpos, -⟩ := hsc
    rw [List.any_eq_true] at hpos
    obtain ⟨x, hx, hxgt⟩ := hpos
    rw [decide_eq_true_eq] at hxgt
    have := h x hx
    linarith

/-- Witness for `irr_no_sign_change_none` on an all-positive and an
all-negative series. -/
theorem irr_no_sign_change_none_witness :
    irr [(1 : ℚ), 2] = none ∧ irr [(-1 : ℚ), -2] = none :=
  ⟨(irr_no_sign_change_none [(1 : ℚ), 2]).1
      (by intro x hx; simp at hx; rcases hx with rfl | rfl <;> norm_num),
   (irr_no_sign_change_none [(-1 : ℚ), -2]).2
      (by intro x hx; simp at hx; rcases hx with rfl | rfl <;> norm_num)⟩

lemma newtonLoop_deriv_small (cf : List ℚ) (n : ℕ) (r : ℚ)
    (h : |dnpvAux r 0 cf| < 1 / 10 ^ 12) :
    newtonLoop cf (n + 1) r = (r, false) := by
  unfold newtonLoop
  rw [if_pos h]

/-- `C8` (counterexample): the claim says that whenever the Newton solver
ends without its successive-estimate tolerance ever being met, `irr`
reports the undefined sentinel.  On [1, 20, −11] (which has a sign change)
the derivative of NPV at the initial guess 0.1 is exactly zero, so the loop
terminates at once without any estimate pair within tolerance — yet `irr`
returns the numeric guess 0.1, not the sentinel. -/
theorem irr_nonconvergence_counterexample :
    signChange [(1 : ℚ), 20, -11] = true ∧
    (newtonLoop [(1 : ℚ), 20, -11] 100 (1 / 10)).2 = false ∧
    irr [(1 : ℚ), 20, -11] = some (1 / 10) := by
  have hsc : signChange [(1 : ℚ), 20, -11] = true := by norm_num [signChange]
  have hd : dnpvAux (1 / 10) 0 [(1 : ℚ), 20, -11] = 0 := by
    norm_num [dnpvAux]
  have hloop : newtonLoop [(1 : ℚ), 20, -11] 100 (1 / 10) = (1 / 10, false) := by
    rw [show (100 : ℕ) = 99 + 1 from rfl]
    exact newtonLoop_deriv_small _ 99 _ (by rw [hd]; norm_num)
  refine ⟨hsc, by rw [hloop], ?_⟩
  unfold irr
  rw [if_pos hsc, hloop]

/-- `C8` (amended): when the cash-flow series has a sign change and the
Newton solver terminates without its convergence tolerance being met, `irr`
returns the solver's last estimate (a numeric value) rather than the
undefined sentinel; the sentinel is produced only by the sign-change
guard. -/
theorem irr_returns_last_estimate (cf : List ℚ) (h : signChange cf = true)
    (h2 : (newtonLoop cf 100 (1 / 10)).2 = false) :
    irr cf = some (newtonLoop cf 100 (1 / 10)).1 := by
  unfold irr
  rw [if_pos h]

/-- Witness for `irr_returns_last_estimate` at the non-converging input
[1, 20, −11]. -/
theorem irr_returns_last_estimate_witness :
    irr [(1 : ℚ), 20, -11] = some ((newtonLoop [(1 : ℚ), 20, -11] 100 (1 / 10)).1) :=
  irr_returns_last_estimate [(1 : ℚ), 20, -11] (by norm_num [signChange])
    (by rw [show (100 : ℕ) = 99 + 1 from rfl,
          newtonLoop_deriv_small [(1 : ℚ), 20, -11] 99 (1 / 10)
            (by norm_num [dnpvAux])])

/-! ### Payback period -/

/-- `np.cumsum(cashflows)` (`investment_model.py`, line 144): running
totals, entry t = sum of the first t+1 cash flows. -/
def cumsum (cf : List ℚ) : List ℚ :=
  (List.range cf.length).map (fun t => (cf.take (t + 1)).sum)

/-- The scan `for t in range(len(cum)): if cum[t] >= 0: ...`
(`investment_model.py`, lines 147–148): index of the first non-negative
running total. -/
def firstNonneg : List ℚ → Option ℕ
  | [] => none
  | c :: rest => if 0 ≤ c then some 0 else (firstNonneg rest).map (· + 1)

/-- `payback_period` (`investment_model.py`, lines 143–157): `nan` (modelled
`none`) when the final cumulative total is negative; otherwise the first
index t with cumulative ≥ 0 is reported — 0 as-is, an exact `t` when the
crossing year's flow is zero, and otherwise the interpolated
`(t-1) + (-cum[t-1]) / cashflows[t]`.  (On an empty series the Python
`cum[-1]` would raise; the claims only concern series indexed 0..N,
N ≥ 0.) -/
def payback_period (cf : List ℚ) : Option ℚ :=
  let cum := cumsum cf
  if cum.getLastD 0 < 0 then none
  else
    match firstNonneg cum with
    | none => none
    | some t =>
      if t = 0 then some 0
      else if cf.getD t 0 = 0 then some (t : ℚ)
      else some ((t : ℚ) - 1 + (-(cum.getD (t - 1) 0)) / cf.getD t 0)

lemma firstNonneg_eq_some :
    ∀ (l : List ℚ) (t : ℕ), t < l.length → 0 ≤ l.getD t 0 →
      (∀ s, s < t → l.getD s 0 < 0) → firstNonneg l = some t
  | [], t, ht, _, _ => absurd ht (by simp)
  | c :: rest, 0, _, h0, _ => by
    unfold firstNonneg
    rw [if_pos (by simpa using h0)]
  | c :: rest, t + 1, ht, h0, hmin => by
    unfold firstNonneg
    have hc : c < 0 := by simpa using hmin 0 (by omega)
    rw [if_neg (not_le.mpr hc),
      firstNonneg_eq_some rest t (by simpa using ht) (by simpa using h0)
        (fun s hs => by simpa using hmin (s + 1) (by omega))]
    rfl

lemma cumsum_length (cf : List ℚ) : (cumsum cf).length = cf.length := by
  unfold cumsum
  rw [List.length_map, List.length_range]

lemma cumsum_getD (cf : List ℚ) (t : ℕ) (ht : t < cf.length) :
    (cumsum cf).getD t 0 = (cf.take (t + 1)).sum := by
  unfold cumsum
  exact getD_range_map _ cf.length t ht

lemma cumsum_succ (cf : List ℚ) (t : ℕ) (h1 : 1 ≤ t) (h2 : t < cf.length) :
    (cumsum cf).getD t 0 = (cumsum cf).getD (t - 1) 0 + cf.getD t 0 := by
  rw [cumsum_getD cf t h2, cumsum_getD cf (t - 1) (by omega)]
  have ht : t - 1 + 1 = t := by omega
  rw [ht, List.take_succ, List.sum_append]
  congr 1
  rw [List.getD_eq_getElem?_getD]
  cases hx : cf[t]? with
  | none =>
    rw [List.getElem?_eq_none_iff] at hx
    omega
  | some x => simp [hx]

/-- `C5` (counterexample): the claim says `payback_period` returns the
undefined sentinel exactly when the cumulative sum never becomes
non-negative within the horizon.  On [−1, 2, −3] the cumulative sum reaches
1 ≥ 0 at t = 1, yet the function returns the sentinel because the *final*
cumulative total (−2) is negative — the code's guard is `cum[-1] < 0`, not
"never non-negative". -/
theorem payback_period_sentinel_counterexample :
    payback_period [(-1 : ℚ), 2, -3] = none ∧
    0 ≤ (cumsum [(-1 : ℚ), 2, -3]).getD 1 0 := by
  have hc : cumsum [(-1 : ℚ), 2, -3] = [-1, 1, -2] := by
    norm_num [cumsum, List.range_succ]
  constructor
  · simp only [payback_period, hc]
    norm_num
  · rw [hc]
    norm_num

/-- `C5` (amended): For every non-empty cash-flow series, `payback_period`
returns the undefined sentinel when the final cumulative total is negative
(even if an intermediate cumulative total was non-negative); when the final
cumulative total is non-negative it returns, for the smallest t with
cumulative ≥ 0, the integer 0 at t = 0, the exact integer t when the
crossing lands exactly on a year boundary (cumulative exactly 0), and
otherwise the interpolated `(t-1) + (-cum(t-1)) / cashflow(t)` — never an
out-of-range index. -/
theorem payback_period_spec (cf : List ℚ) (hne : cf ≠ []) :
    ((cumsum cf).getLastD 0 < 0 → payback_period cf = none) ∧
    (0 ≤ (cumsum cf).getLastD 0 →
      ∀ t, t < (cumsum cf).length → 0 ≤ (cumsum cf).getD t 0 →
        (∀ s, s < t → (cumsum cf).getD s 0 < 0) →
        payback_period cf =
          some (if t = 0 then 0
                else if cf.getD t 0 = 0 then (t : ℚ)
                else (t : ℚ) - 1 + (-((cumsum cf).getD (t - 1) 0)) / cf.getD t 0)) ∧
    (0 ≤ (cumsum cf).getLastD 0 →
      ∀ t, 1 ≤ t → t < (cumsum cf).length → (cumsum cf).getD t 0 = 0 →
        (∀ s, s < t → (cumsum cf).getD s 0 < 0) →
        payback_period cf = some (t : ℚ)) := by
  refine ⟨?_, ?_, ?_⟩
  · intro h
    simp only [payback_period]
    rw [if_pos h]
  · intro hlast t ht h0 hmin
    have hfn : firstNonneg (cumsum cf) = some t :=
      firstNonneg_eq_some (cumsum cf) t ht h0 hmin
    simp only [payback_period]
    rw [if_neg (not_lt.mpr hlast), hfn]
    show (if t = 0 then some 0
      else if cf.getD t 0 = 0 then some (t : ℚ)
      else some ((t : ℚ) - 1 + (-((cumsum cf).getD (t - 1) 0)) / cf.getD t 0)) = _
    split_ifs <;> rfl
  · intro hlast t ht1 ht2 hz hmin
    have hfn : firstNonneg (cumsum cf) = some t :=
      firstNonneg_eq_some (cumsum cf) t ht2 (by rw [hz]) hmin
    simp only [payback_period]
    rw [if_neg (not_lt.mpr hlast), hfn]
    show (if t = 0 then some 0
      else if cf.getD t 0 = 0 then some (t : ℚ)
      else some ((t : ℚ) - 1 + (-((cumsum cf).getD (t - 1) 0)) / cf.getD t 0)) = _
    rw [if_neg (by omega)]
    by_cases hcf : cf.getD t 0 = 0
    · rw [if_pos hcf]
    · rw [if_neg hcf]
      refine congrArg some ?_
      have hlen : t < cf.length := by
        have := ht2
        rw [cumsum_length] at this
        exact this
      have hsucc := cumsum_succ cf t ht1 hlen
      rw [hz] at hsucc
      have hprev : (cumsum cf).getD (t - 1) 0 = -(cf.getD t 0) := by linarith
      rw [hprev, neg_neg, div_self hcf]
      ring

/-- Witness for `payback_period_spec`: on [−1, 2] the crossing happens in
year 1 and the interpolated payback is 0.5 years. -/
theorem payback_period_spec_witness :
    payback_period [(-1 : ℚ), 2] = some (1 / 2) := by
  have hc : cumsum [(-1 : ℚ), 2] = [-1, 1] := by
    norm_num [cumsum, List.range_succ]
  have h := (payback_period_spec [(-1 : ℚ), 2] (by simp)).2.1
    (by rw [hc]; norm_num) 1 (by rw [hc]; norm_num) (by rw [hc]; norm_num)
    (fun s hs => by
      have hs0 : s = 0 := by omega
      subst hs0
      rw [hc]
      norm_num)
  rw [h, hc]
  norm_num

/-! ### Cash-flow consolidator (`npv_proforma`, `calculations.py` lines
31–51, mirrored by the `cf[...]` table of `app.py` lines 104–129).  Each
column of the proforma table is a function of the year index t (0..N);
`sales` is the year-1..N sales series, `wcMov` the year-0..N
working-capital movement series supplied by the caller. -/

/-- `df["Sales"] = [0] + list(sales)`. -/
def pf_sales (sales : List ℚ) (t : ℕ) : ℚ :=
  if t = 0 then 0 else sales.getD (t - 1) 0

/-- `df["VariableCost"] = [0] + list(sales * var_rate)`. -/
def pf_varcost (sales : List ℚ) (var_rate : ℚ) (t : ℕ) : ℚ :=
  if t = 0 then 0 else sales.getD (t - 1) 0 * var_rate

/-- `df["FixedCost"] = [0] + [fixed_cost] * years`. -/
def pf_fixedcost (fixed_cost : ℚ) (t : ℕ) : ℚ :=
  if t = 0 then 0 else fixed_cost

/-- `df["OperatingProfitBeforeCA"] = Sales - VariableCost - FixedCost`, with
row 0 forced to 0. -/
def pf_opbca (sales : List ℚ) (var_rate fixed_cost : ℚ) (t : ℕ) : ℚ :=
  if t = 0 then 0
  else pf_sales sales t - pf_varcost sales var_rate t - pf_fixedcost fixed_cost t

/-- `df["CapitalAllowance"] = [0] + allowances[:-1] + [balancing adj]`. -/
def pf_ca (ca_df : List CARow) (t : ℕ) : ℚ :=
  if t = 0 then 0 else (ca_vec ca_df).getD (t - 1) 0

/-- `df["TaxableProfit"] = OperatingProfitBeforeCA - CapitalAllowance`. -/
def pf_taxable (sales : List ℚ) (var_rate fixed_cost : ℚ) (ca_df : List CARow)
    (t : ℕ) : ℚ :=
  pf_opbca sales var_rate fixed_cost t - pf_ca ca_df t

/-- `df["Tax"] = -np.maximum(TaxableProfit, 0) * tax_rate` (same-year cash
tax in `npv_proforma`; sign already negative). -/
def pf_tax (sales : List ℚ) (var_rate fixed_cost : ℚ) (ca_df : List CARow)
    (tax_rate : ℚ) (t : ℕ) : ℚ :=
  -(max (pf_taxable sales var_rate fixed_cost ca_df t) 0) * tax_rate

/-- `df["Capex"] = 0` except `df.loc[0, "Capex"] = -capex`. -/
def pf_capex (capex : ℚ) (t : ℕ) : ℚ :=
  if t = 0 then -capex else 0

/-- `df["Residual"] = 0` except `df.loc[years, "Residual"] = disposal`. -/
def pf_residual (disposal : ℚ) (years t : ℕ) : ℚ :=
  if t = years then disposal else 0

/-- `df["NetCashFlow"] = OperatingProfitBeforeCA + Tax + WC_Movement + Capex
+ Residual` (`calculations.py` line 48; the same five-term sum appears as
`app.py` line 129 with the lagged tax series). -/
def pf_netcf (sales : List ℚ) (var_rate fixed_cost capex disposal : ℚ)
    (ca_df : List CARow) (wcMov : List ℚ) (tax_rate : ℚ) (years t : ℕ) : ℚ :=
  pf_opbca sales var_rate fixed_cost t + pf_tax sales var_rate fixed_cost ca_df tax_rate t
    + wcMov.getD t 0 + pf_capex capex t + pf_residual disposal years t

/-- `C9`: For every year t in 0..N the consolidated net cash flow equals
operating profit before allowances + working-capital movement − cash tax
due at t + capex + residual; and capital allowances enter this sum only
through the tax term — replacing the allowance schedule by any other one
leaves the net cash flow unchanged once the cash-tax term is added back,
so allowances are never themselves added to or subtracted from any year's
net cash flow. -/
theorem net_cash_flow_decomposition (sales : List ℚ)
    (var_rate fixed_cost capex disposal tax_rate : ℚ)
    (ca_df ca_df2 : List CARow) (wcMov : List ℚ) (years t : ℕ) :
    (pf_netcf sales var_rate fixed_cost capex disposal ca_df wcMov tax_rate years t =
      pf_opbca sales var_rate fixed_cost t + wcMov.getD t 0
        - max (pf_taxable sales var_rate fixed_cost ca_df t) 0 * tax_rate
        + pf_capex capex t + pf_residual disposal years t) ∧
    (pf_netcf sales var_rate fixed_cost capex disposal ca_df wcMov tax_rate years t
        + max (pf_taxable sales var_rate fixed_cost ca_df t) 0 * tax_rate =
      pf_netcf sales var_rate fixed_cost capex disposal ca_df2 wcMov tax_rate years t
        + max (pf_taxable sales var_rate fixed_cost ca_df2 t) 0 * tax_rate) := by
  constructor
  · unfold pf_netcf pf_tax
    ring
  · unfold pf_netcf pf_tax
    ring
